import Mathlib

/-!
Verification of the Qgular data layer (qgular.uncompressed.js).

The JSON-centric values handled by QData are modelled by the mutual
inductives `JsValue` / `JsObj`.  A `JsObj` is a JavaScript object: a
finite sequence of string-keyed fields in insertion order.  `JsValue.del`
stands for an instance of `QDeleteThis`, the delete marker; `JsValue.null`
is the JavaScript `null` (which satisfies `typeof v === 'object'`), and
`JsValue.undef` is `undefined` (which does not).
-/

mutual
inductive JsValue where
  | null : JsValue
  | bool (b : Bool) : JsValue
  | num (n : Int) : JsValue
  | str (s : String) : JsValue
  | del : JsValue
  | undef : JsValue
  | obj (fields : JsObj) : JsValue
deriving DecidableEq
inductive JsObj where
  | nil : JsObj
  | cons (k : String) (v : JsValue) (rest : JsObj) : JsObj
deriving DecidableEq
end

/-- Property read `o[k]`: the first binding of `k` (JS objects never hold a
key twice, so assoc-list lookup agrees with property lookup on well-formed
objects). -/
def objLookup : JsObj → String → Option JsValue
  | .nil, _ => none
  | .cons k0 v0 rest, k => if k0 = k then some v0 else objLookup rest k

/-- Property write `o[k] = v`: replaces the binding in place when the key
exists (JS keeps the original insertion position) and appends otherwise. -/
def objSet : JsObj → String → JsValue → JsObj
  | .nil, k, v => .cons k v .nil
  | .cons k0 v0 rest, k, v =>
    if k0 = k then .cons k0 v rest else .cons k0 v0 (objSet rest k v)

/-- Property deletion `delete o[k]`. -/
def objErase : JsObj → String → JsObj
  | .nil, _ => .nil
  | .cons k0 v0 rest, k => if k0 = k then rest else .cons k0 v0 (objErase rest k)

def objHasKey : JsObj → String → Bool
  | .nil, _ => false
  | .cons k0 _ rest, k => k0 == k || objHasKey rest k

def objAppend : JsObj → JsObj → JsObj
  | .nil, d => d
  | .cons k v rest, d => .cons k v (objAppend rest d)


/-! Decimal property keys: JavaScript coerces numeric property accesses to
their canonical decimal-string form, and `$.each`'s array-like iteration and
string copying use such keys. -/

def jsDigit (c : Char) : Option Nat :=
  if c.isDigit then some (c.toNat - 48) else none

def jsIndexAux : List Char → Nat → Option Nat
  | [], acc => some acc
  | c :: rest, acc =>
    match jsDigit c with
    | some d => jsIndexAux rest (acc * 10 + d)
    | none => none

/-- JS property-key coercion for array access: only the canonical decimal
form of a number is an array index (`arr["01"]` is an ordinary, absent
property); any other string is an ordinary property of the array. -/
def jsArrayIndex (id : String) : Option Nat :=
  match id.data with
  | [] => none
  | c :: rest => if c = '0' ∧ rest ≠ [] then none else jsIndexAux (c :: rest) 0

def natToKeyAux : Nat → Nat → List Char
  | 0, _ => []
  | fuel + 1, n =>
    if n < 10 then [Char.ofNat (48 + n)]
    else natToKeyAux fuel (n / 10) ++ [Char.ofNat (48 + n % 10)]

/-- `String(n)` for a natural number: its canonical decimal form. -/
def natToKey (n : Nat) : String := String.mk (natToKeyAux (n + 1) n)

theorem jsIndexAux_append (l1 l2 : List Char) (acc m : Nat)
    (h : jsIndexAux l1 acc = some m) :
    jsIndexAux (l1 ++ l2) acc = jsIndexAux l2 m := by
  induction l1 generalizing acc with
  | nil => simp [jsIndexAux] at h; simp [h]
  | cons c cs ih =>
    cases hd : jsDigit c with
    | some d =>
      simp only [jsIndexAux, hd] at h
      simp only [List.cons_append, jsIndexAux, hd]
      exact ih _ h
    | none => simp [jsIndexAux, hd] at h

theorem jsDigit_char (d : Nat) (hd : d < 10) :
    jsDigit (Char.ofNat (48 + d)) = some d := by
  interval_cases d <;> decide

theorem natToKeyAux_parse : ∀ (f n acc : Nat), n < f →
    jsIndexAux (natToKeyAux f n) acc
      = some (acc * 10 ^ (natToKeyAux f n).length + n) := by
  intro f
  induction f with
  | zero => intro n acc h; omega
  | succ f ih =>
    intro n acc h
    by_cases h10 : n < 10
    · simp only [natToKeyAux, if_pos h10, jsIndexAux, jsDigit_char n h10]
      simp
    · simp only [natToKeyAux, if_neg h10]
      have hlt : n / 10 < f := by omega
      have h1 := ih (n / 10) acc hlt
      rw [jsIndexAux_append _ _ _ _ h1]
      have hm : n % 10 < 10 := Nat.mod_lt _ (by norm_num)
      simp only [jsIndexAux, jsDigit_char _ hm]
      congr 1
      simp only [List.length_append, List.length_cons, List.length_nil]
      calc (acc * 10 ^ (natToKeyAux f (n / 10)).length + n / 10) * 10 + n % 10
          = acc * (10 ^ (natToKeyAux f (n / 10)).length * 10)
            + (n / 10 * 10 + n % 10) := by ring
        _ = acc * 10 ^ ((natToKeyAux f (n / 10)).length + (0 + 1)) + n := by
            have hdm : n / 10 * 10 + n % 10 = n := by omega
            have hexp : (natToKeyAux f (n / 10)).length + (0 + 1)
                = (natToKeyAux f (n / 10)).length + 1 := by omega
            rw [hdm, hexp, pow_succ]

theorem natToKey_parse (n : Nat) : jsIndexAux (natToKey n).data 0 = some n := by
  have := natToKeyAux_parse (n + 1) n 0 (by omega)
  simpa [natToKey] using this

theorem natToKey_injective (a b : Nat) (h : natToKey a = natToKey b) : a = b := by
  have ha := natToKey_parse a
  have hb := natToKey_parse b
  rw [h] at ha
  rw [ha] at hb
  exact Option.some.inj hb

/-- The index-to-character object a primitive string produces under `for-in`
(a String object's own enumerable properties are its character indices, in
ascending order; `length` is not enumerable). -/
def stringCharsAux : Nat → List Char → JsObj
  | _, [] => .nil
  | i, c :: cs => .cons (natToKey i) (.str (String.mk [c])) (stringCharsAux (i + 1) cs)

def stringCharObj (s : String) : JsObj := stringCharsAux 0 s.data

/-- Shallow removal of `undefined`-valued fields: `$.extend` copies a field
only when `copy !== undefined`. -/
def dropUndefO : JsObj → JsObj
  | .nil => .nil
  | .cons k v rest =>
    match v with
    | .undef => dropUndefO rest
    | v => .cons k v (dropUndefO rest)

/-- No `undefined`-valued field at the top level. -/
def objTopUndefFree : JsObj → Bool
  | .nil => true
  | .cons _ v rest =>
    (match v with
     | .undef => false
     | _ => true) && objTopUndefFree rest

/-- jQuery's `$.extend({}, v)` as used by `QData.set`: a `for-in` copy of
the own enumerable properties of `v`, skipping `undefined`-valued ones.  An
object contributes its defined fields; a primitive string contributes its
character indices (`$.extend({}, "xy")` is `{0:"x", 1:"y"}`); numbers,
booleans and `QDeleteThis` instances have no enumerable own properties, and
`null`/`undefined`/absent arguments are skipped by `$.extend` outright, all
yielding the empty object. -/
def extendCopy : Option JsValue → JsObj
  | some (.obj m) => dropUndefO m
  | some (.str s) => stringCharObj s
  | _ => .nil

/-!
The `apply` loop of `QData.set` (qgular.uncompressed.js, lines 425-437):

    var apply = function(o, d) {
      $.each(d, function(k, v) {
        if (v instanceof QDeleteThis)      delete o[k];
        else if (typeof v !== 'object')    o[k] = v;
        else { o[k] = $.extend({}, o[k]); apply(o[k], v); }
      });
    };

Note that `typeof null === 'object'`, so a `null` patch value takes the
recursive object branch.  `applyPatch`/`applyEntry` below give the loop
under `$.each`'s ordinary `for-in` branch, iterating every own enumerable
field of each level in insertion order; they are the proof-side reference.
The full `$.each` dispatch, including jQuery's array-like branch, is
`applyKeysF`/`qdataSet` further down, which provably coincides with this
reference whenever every patch level takes the `for-in` branch
(`applyKeysF_forIn_eq` below).
-/

mutual
def applyPatch (o : JsObj) : JsObj → JsObj
  | .nil => o
  | .cons k v rest => applyPatch (applyEntry o k v) rest
def applyEntry (o : JsObj) (k : String) : JsValue → JsObj
  | .del => objErase o k
  | .null => objSet o k (.obj (extendCopy (objLookup o k)))
  | .obj m => objSet o k (.obj (applyPatch (extendCopy (objLookup o k)) m))
  | v => objSet o k v
end

/-!
`$.each(obj, cb)` dispatch: jQuery's `isArrayLike` makes `each` treat the
level as an array — visiting the keys `"0" .. String(length - 1)` only and
skipping every other field — exactly when the value is not a function or
window (never the case here) and either its own `length` field is the
number 0, or a positive number `n` such that the key `String(n - 1)` is
present.  Otherwise `each` runs `for-in` over every own enumerable key in
insertion order.
-/

def jsEachLen (d : JsObj) : Option Nat :=
  match objLookup d "length" with
  | some (.num n) =>
    if n = 0 then some 0
    else if 0 < n ∧ objHasKey d (natToKey (n - 1).toNat) = true then some n.toNat
    else none
  | _ => none

def objKeys : JsObj → List String
  | .nil => []
  | .cons k _ rest => k :: objKeys rest

/-- The keys `$.each` visits at one level, in order. -/
def jsEachKeys (d : JsObj) : List String :=
  match jsEachLen d with
  | some n => (List.range n).map natToKey
  | none => objKeys d

/-!
The `apply` loop with `$.each`'s dispatch made explicit.  `applyKeysF`
walks the keys `$.each` visits at one patch level, reading each visited
value from that level — an array-like hole reads as `undefined`, which the
assignment branch stores — and `applyEntryF` is the loop body.  The `fuel`
argument only makes the recursion structural: the wrapper `qdataSet` passes
a budget (one unit per visited key plus each field's own budget) that the
walk cannot exhaust on any value with JavaScript's per-level key uniqueness,
since distinct visited keys read distinct fields.
-/

mutual
def applyKeysF : Nat → JsObj → JsObj → List String → JsObj
  | 0, o, _, _ => o
  | _ + 1, o, _, [] => o
  | fuel + 1, o, d, k :: keys =>
    applyKeysF fuel
      (match objLookup d k with
       | some v => applyEntryF fuel o k v
       | none => objSet o k .undef)
      d keys
def applyEntryF : Nat → JsObj → String → JsValue → JsObj
  | 0, o, _, _ => o
  | _ + 1, o, k, .del => objErase o k
  | _ + 1, o, k, .null => objSet o k (.obj (extendCopy (objLookup o k)))
  | fuel + 1, o, k, .obj m =>
    objSet o k (.obj (applyKeysF fuel (extendCopy (objLookup o k)) m (jsEachKeys m)))
  | _ + 1, o, k, v => objSet o k v
end

mutual
def needV : JsValue → Nat
  | .obj m => 1 + (jsEachKeys m).length + needO m
  | _ => 1
def needO : JsObj → Nat
  | .nil => 0
  | .cons _ v rest => needV v + needO rest
end

/-- `QData.set` followed by `QData.data()`: the method shallow-copies the
snapshot with `$.extend({}, this._data)` — which skips `undefined`-valued
fields — and runs the `apply` loop over the patch (`_notify` / `_changed`
carry the old snapshot and do not touch the data). -/
def qdataSet (snapshot patch : JsObj) : JsObj :=
  applyKeysF ((jsEachKeys patch).length + needO patch + 1) (dropUndefO snapshot)
    patch (jsEachKeys patch)

/-! Hereditarily ordinary values: every object level of the patch takes
`$.each`'s `for-in` branch. -/
mutual
def forInV : JsValue → Bool
  | .obj m => Option.isNone (jsEachLen m) && forInO m
  | _ => true
def forInO : JsObj → Bool
  | .nil => true
  | .cons _ v rest => forInV v && forInO rest
end

/-- The whole patch, top level included, is iterated with `for-in`. -/
def jqForInOnly (d : JsObj) : Bool :=
  Option.isNone (jsEachLen d) && forInO d

/-!
The deep merge as the specification words it (for claim C1): every key
present in the patch is overwritten, recursively merged when both the prior
value and the patch value are nested mappings, and keys not mentioned in the
patch are unchanged.
-/

mutual
def specDeepMerge (o : JsObj) : JsObj → JsObj
  | .nil => o
  | .cons k v rest => specDeepMerge (specMergeEntry o k v) rest
def specMergeEntry (o : JsObj) (k : String) : JsValue → JsObj
  | .obj m =>
    match objLookup o k with
    | some (.obj m2) => objSet o k (.obj (specDeepMerge m2 m))
    | _ => objSet o k (.obj m)
  | v => objSet o k v
end

/-!
Merge compatibility (for claim C1): at every key where the patch carries a
nested mapping, the prior value it merges onto is neither a string (whose
`$.extend` copy would spread character indices) nor a mapping holding
`undefined`-valued fields at its top level (which the copy would drop); this
is checked recursively through matching nested mappings.
-/
mutual
def mergeOkV : Option JsValue → JsValue → Bool
  | cur, .obj m =>
    (match cur with
     | some (.str _) => false
     | some (.obj m2) => objTopUndefFree m2 && mergeOkO m2 m
     | _ => true)
  | _, _ => true
def mergeOkO : JsObj → JsObj → Bool
  | _, .nil => true
  | o, .cons k v rest => mergeOkV (objLookup o k) v && mergeOkO o rest
end

/-! No `QDeleteThis` delete marker anywhere in the value. -/
mutual
def delFreeV : JsValue → Bool
  | .del => false
  | .obj m => delFreeO m
  | _ => true
def delFreeO : JsObj → Bool
  | .nil => true
  | .cons _ v rest => delFreeV v && delFreeO rest
end

/-! No `null` anywhere in the value. -/
mutual
def nullFreeV : JsValue → Bool
  | .null => false
  | .obj m => nullFreeO m
  | _ => true
def nullFreeO : JsObj → Bool
  | .nil => true
  | .cons _ v rest => nullFreeV v && nullFreeO rest
end

/-! Hereditary key uniqueness: what every value built from JavaScript object
literals satisfies (an object cannot hold the same key twice). -/
mutual
def wfV : JsValue → Bool
  | .obj m => wfO m
  | _ => true
def wfO : JsObj → Bool
  | .nil => true
  | .cons k v rest => !objHasKey rest k && wfV v && wfO rest
end

/-- Top-level key uniqueness only. -/
def uniqO : JsObj → Bool
  | .nil => true
  | .cons k _ rest => !objHasKey rest k && uniqO rest

/-- Every key of the first object is absent from the second. -/
def objKeysFresh : JsObj → JsObj → Bool
  | .nil, _ => true
  | .cons k _ rest, o => !objHasKey o k && objKeysFresh rest o

/-- Dotted-path lookup: `objLookupPath o k ks` reads `o[k]`, then follows the
remaining keys `ks` through nested objects. -/
def objLookupPath (o : JsObj) (k : String) : List String → Option JsValue
  | [] => objLookup o k
  | k2 :: rest =>
    match objLookup o k with
    | some (.obj m) => objLookupPath m k2 rest
    | _ => none

/-- What a single patch entry leaves at its own key, as a function of the
value previously stored there. -/
def entryResult (cur : Option JsValue) : JsValue → Option JsValue
  | .del => none
  | .null => some (.obj (extendCopy cur))
  | .obj m => some (.obj (applyPatch (extendCopy cur) m))
  | v => some v

def JsValue.isScalar : JsValue → Bool
  | .bool _ => true
  | .num _ => true
  | .str _ => true
  | _ => false

/-- Induction on the object spine alone (the mutual recursor of
`JsValue`/`JsObj` has two motives, which the `induction` tactic cannot use). -/
theorem JsObj.inductionOn (motive : JsObj → Prop) (hnil : motive .nil)
    (hcons : ∀ k v rest, motive rest → motive (.cons k v rest)) : ∀ o, motive o
  | .nil => hnil
  | .cons k v rest => hcons k v rest (JsObj.inductionOn motive hnil hcons rest)

/-! Basic facts about property reads, writes and deletions. -/

theorem objLookup_objSet_self (o : JsObj) (k : String) (v : JsValue) :
    objLookup (objSet o k v) k = some v := by
  induction o using JsObj.inductionOn with
  | hnil => simp [objSet, objLookup]
  | hcons k0 v0 rest ih =>
    by_cases h : k0 = k <;> simp [objSet, objLookup, h, ih]

theorem objLookup_objSet_ne (o : JsObj) (k1 k2 : String) (v : JsValue)
    (h : k1 ≠ k2) : objLookup (objSet o k1 v) k2 = objLookup o k2 := by
  induction o using JsObj.inductionOn with
  | hnil => simp [objSet, objLookup, h]
  | hcons k0 v0 rest ih =>
    by_cases h0 : k0 = k1
    · subst h0; simp [objSet, objLookup, h, Ne.symm h, ih]
    · by_cases h2 : k0 = k2 <;>
        simp [objSet, objLookup, h0, h2, Ne.symm h, ih]

theorem objLookup_objErase_ne (o : JsObj) (k1 k2 : String)
    (h : k1 ≠ k2) : objLookup (objErase o k1) k2 = objLookup o k2 := by
  induction o using JsObj.inductionOn with
  | hnil => simp [objErase]
  | hcons k0 v0 rest ih =>
    by_cases h0 : k0 = k1
    · subst h0; simp [objErase, objLookup, h, Ne.symm h]
    · by_cases h2 : k0 = k2 <;>
        simp [objErase, objLookup, h0, h2, Ne.symm h, ih]

theorem objHasKey_false_lookup (o : JsObj) (k : String)
    (h : objHasKey o k = false) : objLookup o k = none := by
  induction o using JsObj.inductionOn with
  | hnil => simp [objLookup]
  | hcons k0 v0 rest ih =>
    simp [objHasKey] at h
    simp [objLookup, h.1, ih h.2]

theorem objLookup_objErase_self (o : JsObj) (k : String)
    (h : uniqO o = true) : objLookup (objErase o k) k = none := by
  induction o using JsObj.inductionOn with
  | hnil => simp [objErase, objLookup]
  | hcons k0 v0 rest ih =>
    simp [uniqO] at h
    by_cases h0 : k0 = k
    · subst h0
      simpa [objErase] using objHasKey_false_lookup rest k0 h.1
    · simp [objErase, objLookup, h0, ih h.2]

theorem objHasKey_objSet_ne (o : JsObj) (k1 k2 : String) (v : JsValue)
    (h : k1 ≠ k2) : objHasKey (objSet o k1 v) k2 = objHasKey o k2 := by
  induction o using JsObj.inductionOn with
  | hnil => simp [objSet, objHasKey, h]
  | hcons k0 v0 rest ih =>
    by_cases h0 : k0 = k1
    · subst h0; simp [objSet, objHasKey]
    · simp [objSet, objHasKey, h0, ih]

theorem objHasKey_objErase_imp (o : JsObj) (k1 k2 : String)
    (h : objHasKey (objErase o k1) k2 = true) : objHasKey o k2 = true := by
  induction o using JsObj.inductionOn with
  | hnil => simp [objErase, objHasKey] at h
  | hcons k0 v0 rest ih =>
    by_cases h0 : k0 = k1
    · subst h0; simp [objErase] at h; simp [objHasKey, h]
    · simp [objErase, h0, objHasKey] at h
      rcases h with h | h
      · simp [objHasKey, h]
      · simp [objHasKey, ih h]

theorem uniqO_objSet (o : JsObj) (k : String) (v : JsValue)
    (h : uniqO o = true) : uniqO (objSet o k v) = true := by
  induction o using JsObj.inductionOn with
  | hnil => simp [objSet, uniqO, objHasKey]
  | hcons k0 v0 rest ih =>
    simp [uniqO] at h
    by_cases h0 : k0 = k
    · subst h0; simp [objSet, uniqO, h.1, h.2]
    · have hne : k ≠ k0 := fun hh => h0 hh.symm
      simp [objSet, uniqO, h0, objHasKey_objSet_ne rest k k0 v hne, h.1, ih h.2]

theorem uniqO_objErase (o : JsObj) (k : String)
    (h : uniqO o = true) : uniqO (objErase o k) = true := by
  induction o using JsObj.inductionOn with
  | hnil => simp [objErase, uniqO]
  | hcons k0 v0 rest ih =>
    simp [uniqO] at h
    by_cases h0 : k0 = k
    · subst h0; simp [objErase, h.2]
    · have hk : objHasKey (objErase rest k) k0 = false := by
        cases hc : objHasKey (objErase rest k) k0 with
        | false => rfl
        | true => exact absurd (objHasKey_objErase_imp rest k k0 hc) (by simp [h.1])
      simp [objErase, h0, uniqO, ih h.2, hk]

theorem wfO_uniqO (o : JsObj) (h : wfO o = true) : uniqO o = true := by
  induction o using JsObj.inductionOn with
  | hnil => simp [uniqO]
  | hcons k0 v0 rest ih =>
    simp [wfO] at h
    obtain ⟨⟨h1, _⟩, h3⟩ := h
    simp [uniqO, h1, ih h3]

/-! How one pass of the `apply` loop affects lookups. -/

theorem applyEntry_lookup_ne (o : JsObj) (k1 k2 : String) (v : JsValue)
    (h : k1 ≠ k2) : objLookup (applyEntry o k1 v) k2 = objLookup o k2 := by
  cases v with
  | del => simpa [applyEntry] using objLookup_objErase_ne o k1 k2 h
  | null => simpa [applyEntry] using objLookup_objSet_ne o k1 k2 _ h
  | obj m => simpa [applyEntry] using objLookup_objSet_ne o k1 k2 _ h
  | bool b => simpa [applyEntry] using objLookup_objSet_ne o k1 k2 _ h
  | num n => simpa [applyEntry] using objLookup_objSet_ne o k1 k2 _ h
  | str s => simpa [applyEntry] using objLookup_objSet_ne o k1 k2 _ h
  | undef => simpa [applyEntry] using objLookup_objSet_ne o k1 k2 _ h

theorem applyEntry_uniq (o : JsObj) (k : String) (v : JsValue)
    (h : uniqO o = true) : uniqO (applyEntry o k v) = true := by
  cases v with
  | del => simpa [applyEntry] using uniqO_objErase o k h
  | null => simpa [applyEntry] using uniqO_objSet o k _ h
  | obj m => simpa [applyEntry] using uniqO_objSet o k _ h
  | bool b => simpa [applyEntry] using uniqO_objSet o k _ h
  | num n => simpa [applyEntry] using uniqO_objSet o k _ h
  | str s => simpa [applyEntry] using uniqO_objSet o k _ h
  | undef => simpa [applyEntry] using uniqO_objSet o k _ h

theorem applyEntry_lookup_self (o : JsObj) (k : String) (v : JsValue)
    (h : uniqO o = true) :
    objLookup (applyEntry o k v) k = entryResult (objLookup o k) v := by
  cases v with
  | del => simpa [applyEntry, entryResult] using objLookup_objErase_self o k h
  | null => simpa [applyEntry, entryResult] using objLookup_objSet_self o k _
  | obj m => simpa [applyEntry, entryResult] using objLookup_objSet_self o k _
  | bool b => simpa [applyEntry, entryResult] using objLookup_objSet_self o k _
  | num n => simpa [applyEntry, entryResult] using objLookup_objSet_self o k _
  | str s => simpa [applyEntry, entryResult] using objLookup_objSet_self o k _
  | undef => simpa [applyEntry, entryResult] using objLookup_objSet_self o k _

theorem applyPatch_lookup_fresh (d : JsObj) (k : String) :
    ∀ o : JsObj, objHasKey d k = false →
      objLookup (applyPatch o d) k = objLookup o k := by
  induction d using JsObj.inductionOn with
  | hnil => intro o _; simp [applyPatch]
  | hcons k0 v0 rest ih =>
    intro o h
    simp [objHasKey] at h
    rw [applyPatch, ih _ h.2, applyEntry_lookup_ne o k0 k v0 h.1]

/-- The key fact about `QData.set`'s merge loop: on a well-formed patch the
final value at a key is decided entirely by that key's patch entry. -/
theorem applyPatch_lookup_key (d : JsObj) (k : String) (v : JsValue) :
    ∀ o : JsObj, uniqO o = true → wfO d = true → objLookup d k = some v →
      objLookup (applyPatch o d) k = entryResult (objLookup o k) v := by
  induction d using JsObj.inductionOn with
  | hnil => intro o _ _ hl; simp [objLookup] at hl
  | hcons k0 v0 rest ih =>
    intro o ho hw hl
    simp [wfO] at hw
    obtain ⟨⟨hw1, _⟩, hw3⟩ := hw
    by_cases h0 : k0 = k
    · subst h0
      simp [objLookup] at hl
      subst hl
      rw [applyPatch, applyPatch_lookup_fresh rest k0 _ hw1]
      exact applyEntry_lookup_self o k0 v0 ho
    · simp [objLookup, h0] at hl
      rw [applyPatch, ih _ (applyEntry_uniq o k0 v0 ho) hw3 hl,
        applyEntry_lookup_ne o k0 k v0 h0]

theorem wfO_lookup_obj (o : JsObj) (k : String) (m : JsObj)
    (hw : wfO o = true) (hl : objLookup o k = some (.obj m)) : wfO m = true := by
  induction o using JsObj.inductionOn with
  | hnil => simp [objLookup] at hl
  | hcons k0 v0 rest ih =>
    simp [wfO] at hw
    obtain ⟨⟨_, hw2⟩, hw3⟩ := hw
    by_cases h0 : k0 = k
    · subst h0
      simp [objLookup] at hl
      subst hl
      simpa [wfV] using hw2
    · simp [objLookup, h0] at hl
      exact ih hw3 hl


theorem objHasKey_dropUndef_imp (o : JsObj) (k : String)
    (h : objHasKey (dropUndefO o) k = true) : objHasKey o k = true := by
  induction o using JsObj.inductionOn with
  | hnil => simp [dropUndefO, objHasKey] at h
  | hcons k0 v0 rest ih =>
    cases v0 with
    | undef => simp [dropUndefO] at h; simp [objHasKey, ih h]
    | null => simp [dropUndefO, objHasKey] at h ⊢; tauto
    | bool b => simp [dropUndefO, objHasKey] at h ⊢; tauto
    | num n => simp [dropUndefO, objHasKey] at h ⊢; tauto
    | str s2 => simp [dropUndefO, objHasKey] at h ⊢; tauto
    | del => simp [dropUndefO, objHasKey] at h ⊢; tauto
    | obj m => simp [dropUndefO, objHasKey] at h ⊢; tauto

theorem wfO_dropUndef (o : JsObj) (hw : wfO o = true) :
    wfO (dropUndefO o) = true := by
  induction o using JsObj.inductionOn with
  | hnil => simp [dropUndefO, wfO]
  | hcons k0 v0 rest ih =>
    simp only [wfO, Bool.and_eq_true] at hw
    obtain ⟨⟨hw1, hw2⟩, hw3⟩ := hw
    have hkey : objHasKey (dropUndefO rest) k0 = false := by
      cases hc : objHasKey (dropUndefO rest) k0 with
      | false => rfl
      | true => exact absurd (objHasKey_dropUndef_imp rest k0 hc) (by simpa using hw1)
    cases v0 with
    | undef => simp [dropUndefO, ih hw3]
    | null => simp [dropUndefO, wfO, hkey, hw2, ih hw3]
    | bool b => simp [dropUndefO, wfO, hkey, hw2, ih hw3]
    | num n => simp [dropUndefO, wfO, hkey, hw2, ih hw3]
    | str s2 => simp [dropUndefO, wfO, hkey, hw2, ih hw3]
    | del => simp [dropUndefO, wfO, hkey, hw2, ih hw3]
    | obj m => simp [dropUndefO, wfO, hkey, ih hw3]; simpa [wfV] using hw2

theorem objTopUndefFree_dropUndef_id (o : JsObj)
    (h : objTopUndefFree o = true) : dropUndefO o = o := by
  induction o using JsObj.inductionOn with
  | hnil => rfl
  | hcons k0 v0 rest ih =>
    simp only [objTopUndefFree, Bool.and_eq_true] at h
    cases v0 with
    | undef => simp at h
    | null => simp [dropUndefO, ih h.2]
    | bool b => simp [dropUndefO, ih h.2]
    | num n => simp [dropUndefO, ih h.2]
    | str s2 => simp [dropUndefO, ih h.2]
    | del => simp [dropUndefO, ih h.2]
    | obj m => simp [dropUndefO, ih h.2]

theorem objLookup_dropUndef_of_ne (o : JsObj) (k : String) (v : JsValue)
    (hl : objLookup o k = some v) (hv : v ≠ .undef) :
    objLookup (dropUndefO o) k = some v := by
  induction o using JsObj.inductionOn with
  | hnil => simp [objLookup] at hl
  | hcons k0 v0 rest ih =>
    by_cases h0 : k0 = k
    · subst h0
      have hv0 : v0 = v := by simpa [objLookup] using hl
      subst hv0
      cases v0 with
      | undef => exact absurd rfl hv
      | null => simp [dropUndefO, objLookup]
      | bool b => simp [dropUndefO, objLookup]
      | num n => simp [dropUndefO, objLookup]
      | str s2 => simp [dropUndefO, objLookup]
      | del => simp [dropUndefO, objLookup]
      | obj m => simp [dropUndefO, objLookup]
    · simp only [objLookup, if_neg h0] at hl
      cases v0 with
      | undef => simp [dropUndefO, ih hl]
      | null => simp [dropUndefO, objLookup, h0, ih hl]
      | bool b => simp [dropUndefO, objLookup, h0, ih hl]
      | num n => simp [dropUndefO, objLookup, h0, ih hl]
      | str s2 => simp [dropUndefO, objLookup, h0, ih hl]
      | del => simp [dropUndefO, objLookup, h0, ih hl]
      | obj m => simp [dropUndefO, objLookup, h0, ih hl]

theorem stringCharsAux_hasKey_lt (cs : List Char) :
    ∀ i j, j < i → objHasKey (stringCharsAux i cs) (natToKey j) = false := by
  induction cs with
  | nil => intro i j _; simp [stringCharsAux, objHasKey]
  | cons c cs ih =>
    intro i j hj
    have hne : (natToKey i == natToKey j) = false := by
      simp only [beq_eq_false_iff_ne, ne_eq]
      intro hk
      exact absurd (natToKey_injective i j hk) (by omega)
    simp [stringCharsAux, objHasKey, hne, ih (i + 1) j (by omega)]

theorem wfO_stringCharsAux (cs : List Char) :
    ∀ i, wfO (stringCharsAux i cs) = true := by
  induction cs with
  | nil => intro i; simp [stringCharsAux, wfO]
  | cons c cs ih =>
    intro i
    simp [stringCharsAux, wfO, stringCharsAux_hasKey_lt cs (i + 1) i (by omega),
      wfV, ih (i + 1)]

theorem wfO_stringCharObj (s : String) : wfO (stringCharObj s) = true :=
  wfO_stringCharsAux s.data 0

theorem wfO_extendCopy (o : JsObj) (k : String) (hw : wfO o = true) :
    wfO (extendCopy (objLookup o k)) = true := by
  cases hl : objLookup o k with
  | none => simp [extendCopy, wfO]
  | some v =>
    cases v with
    | obj m =>
      simpa [extendCopy] using wfO_dropUndef m (wfO_lookup_obj o k m hw hl)
    | str s => simpa [extendCopy] using wfO_stringCharObj s
    | null => simp [extendCopy, wfO]
    | bool b => simp [extendCopy, wfO]
    | num n => simp [extendCopy, wfO]
    | del => simp [extendCopy, wfO]
    | undef => simp [extendCopy, wfO]

/-- On the `for-in` reference loop: a `QDeleteThis` delete marker at the
end of any dotted path of a well-formed patch leaves that key absent from
the corresponding level of the result, whatever the target held before
(supporting lemma for claim C5). -/
theorem applyPatch_delete_marker (ks : List String) :
    ∀ (k : String) (prior patch : JsObj),
      wfO prior = true → wfO patch = true →
      objLookupPath patch k ks = some .del →
      objLookupPath (applyPatch prior patch) k ks = none := by
  induction ks with
  | nil =>
    intro k prior patch hwp hwd h
    simp only [objLookupPath] at h ⊢
    simpa [entryResult] using
      applyPatch_lookup_key patch k .del prior (wfO_uniqO prior hwp) hwd h
  | cons k2 rest ih =>
    intro k prior patch hwp hwd h
    cases hl : objLookup patch k with
    | none =>
      simp only [objLookupPath, hl] at h
      exact Option.noConfusion h
    | some v =>
      cases v with
      | obj m =>
        simp only [objLookupPath, hl] at h
        have hres : objLookup (applyPatch prior patch) k
            = some (.obj (applyPatch (extendCopy (objLookup prior k)) m)) := by
          simpa [entryResult] using
            applyPatch_lookup_key patch k (.obj m) prior (wfO_uniqO prior hwp) hwd hl
        simp only [objLookupPath, hres]
        exact ih k2 (extendCopy (objLookup prior k)) m
          (wfO_extendCopy prior k hwp) (wfO_lookup_obj patch k m hwd hl) h
      | null =>
        simp only [objLookupPath, hl] at h
        exact Option.noConfusion h
      | bool b =>
        simp only [objLookupPath, hl] at h
        exact Option.noConfusion h
      | num n =>
        simp only [objLookupPath, hl] at h
        exact Option.noConfusion h
      | str s =>
        simp only [objLookupPath, hl] at h
        exact Option.noConfusion h
      | del =>
        simp only [objLookupPath, hl] at h
        exact Option.noConfusion h
      | undef =>
        simp only [objLookupPath, hl] at h
        exact Option.noConfusion h

/-! Appending fresh keys: the shape `QData.set` takes on keys the target does
not yet hold. -/

theorem objAppend_nil (o : JsObj) : objAppend o .nil = o := by
  induction o using JsObj.inductionOn with
  | hnil => rfl
  | hcons k v rest ih => simp [objAppend, ih]

theorem objAppend_assoc (a b c : JsObj) :
    objAppend (objAppend a b) c = objAppend a (objAppend b c) := by
  induction a using JsObj.inductionOn with
  | hnil => rfl
  | hcons k v rest ih => simp [objAppend, ih]

theorem objHasKey_objAppend (a b : JsObj) (k : String) :
    objHasKey (objAppend a b) k = (objHasKey a k || objHasKey b k) := by
  induction a using JsObj.inductionOn with
  | hnil => simp [objAppend, objHasKey]
  | hcons k0 v0 rest ih => simp [objAppend, objHasKey, ih, Bool.or_assoc]

theorem objSet_fresh (o : JsObj) (k : String) (v : JsValue)
    (h : objHasKey o k = false) : objSet o k v = objAppend o (.cons k v .nil) := by
  induction o using JsObj.inductionOn with
  | hnil => rfl
  | hcons k0 v0 rest ih =>
    simp [objHasKey] at h
    simp [objSet, objAppend, h.1, ih h.2]

theorem objKeysFresh_nil (d : JsObj) : objKeysFresh d .nil = true := by
  induction d using JsObj.inductionOn with
  | hnil => rfl
  | hcons k v rest ih => simp [objKeysFresh, objHasKey, ih]

theorem objKeysFresh_grow (d : JsObj) (o : JsObj) (k : String) (v : JsValue)
    (hf : objKeysFresh d o = true) (hk : objHasKey d k = false) :
    objKeysFresh d (objAppend o (.cons k v .nil)) = true := by
  induction d using JsObj.inductionOn with
  | hnil => rfl
  | hcons k1 v1 rest ih =>
    simp [objKeysFresh] at hf
    simp [objHasKey] at hk
    have hne : (k == k1) = false := by
      simp only [beq_eq_false_iff_ne, ne_eq]
      exact fun hh => hk.1 hh.symm
    simp [objKeysFresh, objHasKey_objAppend, hf.1, objHasKey, hne,
      ih hf.2 hk.2]

theorem mergeOkO_congr (d : JsObj) (o1 o2 : JsObj)
    (h : ∀ k2, objHasKey d k2 = true → objLookup o2 k2 = objLookup o1 k2)
    (hm : mergeOkO o1 d = true) : mergeOkO o2 d = true := by
  induction d using JsObj.inductionOn with
  | hnil => simp [mergeOkO]
  | hcons k v rest ih =>
    simp only [mergeOkO, Bool.and_eq_true] at hm ⊢
    have hk : objLookup o2 k = objLookup o1 k := h k (by simp [objHasKey])
    refine ⟨by rw [hk]; exact hm.1, ih ?_ hm.2⟩
    intro k2 hk2
    exact h k2 (by simp [objHasKey, hk2])

/-!
Claim C1's refinement argument: on well-formed patches free of delete
markers and of `null`s, none of whose levels is array-like, and whose
nested mappings merge only onto compatible prior values (`mergeOkO`), the
`apply` loop computes exactly the deep merge the specification describes.
`applyPatch_fresh_append` handles the case where the patch brings a nested
object to a key whose prior value contributes nothing to the `$.extend`
copy: the loop then deep-copies the patch object into a fresh empty object,
which reproduces the patch object itself.
-/

mutual
theorem applyPatch_eq_spec : ∀ (d : JsObj), delFreeO d = true → nullFreeO d = true →
    wfO d = true → ∀ o : JsObj, mergeOkO o d = true → applyPatch o d = specDeepMerge o d
  | .nil, _, _, _, _, _ => rfl
  | .cons k v rest, hd, hn, hw, o, hm => by
    simp only [delFreeO, Bool.and_eq_true] at hd
    simp only [nullFreeO, Bool.and_eq_true] at hn
    simp only [wfO, Bool.and_eq_true] at hw
    simp only [mergeOkO, Bool.and_eq_true] at hm
    have hrest : mergeOkO (applyEntry o k v) rest = true := by
      refine mergeOkO_congr rest o (applyEntry o k v) ?_ hm.2
      intro k2 hk2
      have hne : k ≠ k2 := by
        intro hkk
        subst hkk
        exact absurd hk2 (by simpa using hw.1.1)
      exact applyEntry_lookup_ne o k k2 v hne
    rw [applyPatch, specDeepMerge,
      applyPatch_eq_spec rest hd.2 hn.2 hw.2 (applyEntry o k v) hrest,
      applyEntry_eq_spec v hd.1 hn.1 hw.1.2 o k hm.1]
theorem applyEntry_eq_spec : ∀ (v : JsValue), delFreeV v = true → nullFreeV v = true →
    wfV v = true → ∀ (o : JsObj) (k : String), mergeOkV (objLookup o k) v = true →
      applyEntry o k v = specMergeEntry o k v
  | .null, _, hn, _, _, _, _ => by simp [nullFreeV] at hn
  | .del, hd, _, _, _, _, _ => by simp [delFreeV] at hd
  | .bool _, _, _, _, _, _, _ => rfl
  | .num _, _, _, _, _, _, _ => rfl
  | .str _, _, _, _, _, _, _ => rfl
  | .undef, _, _, _, _, _, _ => rfl
  | .obj m, hd, hn, hw, o, k, hm => by
    simp only [delFreeV] at hd
    simp only [nullFreeV] at hn
    simp only [wfV] at hw
    cases hl : objLookup o k with
    | some v2 =>
      cases v2 with
      | obj m2 =>
        rw [hl] at hm
        simp only [mergeOkV, Bool.and_eq_true] at hm
        simp only [applyEntry, specMergeEntry, hl, extendCopy,
          objTopUndefFree_dropUndef_id m2 hm.1]
        rw [applyPatch_eq_spec m hd hn hw m2 hm.2]
      | str s =>
        rw [hl] at hm
        simp [mergeOkV] at hm
      | null =>
        simp only [applyEntry, specMergeEntry, hl, extendCopy]
        rw [applyPatch_fresh_append m hd hn hw .nil (objKeysFresh_nil m)]
        rfl
      | bool b =>
        simp only [applyEntry, specMergeEntry, hl, extendCopy]
        rw [applyPatch_fresh_append m hd hn hw .nil (objKeysFresh_nil m)]
        rfl
      | num n =>
        simp only [applyEntry, specMergeEntry, hl, extendCopy]
        rw [applyPatch_fresh_append m hd hn hw .nil (objKeysFresh_nil m)]
        rfl
      | del =>
        simp only [applyEntry, specMergeEntry, hl, extendCopy]
        rw [applyPatch_fresh_append m hd hn hw .nil (objKeysFresh_nil m)]
        rfl
      | undef =>
        simp only [applyEntry, specMergeEntry, hl, extendCopy]
        rw [applyPatch_fresh_append m hd hn hw .nil (objKeysFresh_nil m)]
        rfl
    | none =>
      simp only [applyEntry, specMergeEntry, hl, extendCopy]
      rw [applyPatch_fresh_append m hd hn hw .nil (objKeysFresh_nil m)]
      rfl
theorem applyPatch_fresh_append : ∀ (d : JsObj), delFreeO d = true → nullFreeO d = true →
    wfO d = true → ∀ o : JsObj, objKeysFresh d o = true → applyPatch o d = objAppend o d
  | .nil, _, _, _, o, _ => by simp [applyPatch, objAppend_nil]
  | .cons k v rest, hd, hn, hw, o, hf => by
    simp only [delFreeO, Bool.and_eq_true] at hd
    simp only [nullFreeO, Bool.and_eq_true] at hn
    simp only [wfO, Bool.and_eq_true] at hw
    simp only [objKeysFresh, Bool.and_eq_true, Bool.not_eq_true'] at hf
    have hlk : objLookup o k = none := objHasKey_false_lookup o k hf.1
    have he : applyEntry o k v = objSet o k v := by
      cases v with
      | null => simp [nullFreeV] at hn
      | del => simp [delFreeV] at hd
      | bool b => rfl
      | num n => rfl
      | str s => rfl
      | undef => rfl
      | obj m =>
        simp only [nullFreeV] at hn
        simp only [delFreeV] at hd
        simp only [wfV] at hw
        simp only [applyEntry, hlk, extendCopy]
        rw [applyPatch_fresh_append m hd.1 hn.1 hw.1.2 .nil (objKeysFresh_nil m)]
        rfl
    rw [applyPatch, he, objSet_fresh o k v hf.1,
      applyPatch_fresh_append rest hd.2 hn.2 hw.2 _
        (objKeysFresh_grow rest o k v hf.2 (by simpa using hw.1.1)),
      objAppend_assoc]
    rfl
end

theorem objLookup_some_hasKey (o : JsObj) (k : String) (v : JsValue)
    (h : objLookup o k = some v) : objHasKey o k = true := by
  induction o using JsObj.inductionOn with
  | hnil => simp [objLookup] at h
  | hcons k0 v0 rest ih =>
    by_cases h0 : k0 = k
    · simp [objHasKey, h0]
    · simp only [objLookup, if_neg h0] at h
      simp [objHasKey, ih h]

theorem jsEachKeys_forIn (d : JsObj) (h : Option.isNone (jsEachLen d) = true) :
    jsEachKeys d = objKeys d := by
  cases hl : jsEachLen d with
  | none => simp [jsEachKeys, hl]
  | some n => simp [hl] at h

/-!
The bridge: on a well-formed level whose every sublevel takes the `for-in`
branch, walking the level's own keys with `applyKeysF` — against any object
`d` that agrees with the level on those keys — is the `for-in` reference
loop, for any fuel at least one unit per visited key plus the fields'
budgets.
-/

mutual
theorem applyKeysF_forIn_eq : ∀ (e : JsObj), wfO e = true → forInO e = true →
    ∀ (d o : JsObj) (fuel : Nat),
      (∀ k2 v2, objLookup e k2 = some v2 → objLookup d k2 = some v2) →
      (objKeys e).length + needO e ≤ fuel →
      applyKeysF fuel o d (objKeys e) = applyPatch o e
  | .nil, _, _, d, o, fuel, _, _ => by cases fuel <;> rfl
  | .cons k0 v0 e', hw, hf, d, o, fuel, hagr, hfuel => by
    simp only [wfO, Bool.and_eq_true] at hw
    simp only [forInO, Bool.and_eq_true] at hf
    cases fuel with
    | zero =>
      exfalso
      have h1 : 1 ≤ needV v0 := by cases v0 <;> simp [needV]; omega
      simp only [objKeys, List.length_cons, needO] at hfuel
      omega
    | succ f =>
      have hlk : objLookup d k0 = some v0 := hagr k0 v0 (by simp [objLookup])
      have hfv : needV v0 ≤ f := by
        simp only [objKeys, List.length_cons, needO] at hfuel
        omega
      have hfr : (objKeys e').length + needO e' ≤ f := by
        simp only [objKeys, List.length_cons, needO] at hfuel
        have h1 : 1 ≤ needV v0 := by cases v0 <;> simp [needV]; omega
        omega
      have hagr2 : ∀ k2 v2, objLookup e' k2 = some v2 → objLookup d k2 = some v2 := by
        intro k2 v2 hl2
        have hk2 : objHasKey e' k2 = true := objLookup_some_hasKey e' k2 v2 hl2
        have hne : k0 ≠ k2 := by
          intro he
          subst he
          exact absurd hk2 (by simpa using hw.1.1)
        exact hagr k2 v2 (by simp [objLookup, hne, hl2])
      simp only [objKeys, applyKeysF, hlk]
      rw [applyEntryF_forIn_eq v0 hw.1.2 hf.1 o k0 f hfv,
        applyKeysF_forIn_eq e' hw.2 hf.2 d (applyEntry o k0 v0) f hagr2 hfr,
        applyPatch]
theorem applyEntryF_forIn_eq : ∀ (v : JsValue), wfV v = true → forInV v = true →
    ∀ (o : JsObj) (k : String) (fuel : Nat), needV v ≤ fuel →
      applyEntryF fuel o k v = applyEntry o k v
  | .null, _, _, o, k, fuel, hfu => by
    cases fuel with
    | zero => simp [needV] at hfu
    | succ f => rfl
  | .del, _, _, o, k, fuel, hfu => by
    cases fuel with
    | zero => simp [needV] at hfu
    | succ f => rfl
  | .bool b, _, _, o, k, fuel, hfu => by
    cases fuel with
    | zero => simp [needV] at hfu
    | succ f => rfl
  | .num n, _, _, o, k, fuel, hfu => by
    cases fuel with
    | zero => simp [needV] at hfu
    | succ f => rfl
  | .str s2, _, _, o, k, fuel, hfu => by
    cases fuel with
    | zero => simp [needV] at hfu
    | succ f => rfl
  | .undef, _, _, o, k, fuel, hfu => by
    cases fuel with
    | zero => simp [needV] at hfu
    | succ f => rfl
  | .obj m, hw, hf, o, k, fuel, hfu => by
    simp only [wfV] at hw
    simp only [forInV, Bool.and_eq_true] at hf
    cases fuel with
    | zero => simp [needV] at hfu
    | succ f =>
      have hkeys : jsEachKeys m = objKeys m := jsEachKeys_forIn m hf.1
      have hfm : (objKeys m).length + needO m ≤ f := by
        simp only [needV, hkeys] at hfu
        omega
      simp only [applyEntryF, applyEntry, hkeys]
      rw [applyKeysF_forIn_eq m hw hf.2 m (extendCopy (objLookup o k)) f
        (fun _ _ h => h) hfm]
end

/-- Claim C1 (amended): for every Record snapshot (carrying, like any JSON
data, no `undefined`-valued fields at its top level) and every well-formed
patch that contains no delete markers and no `null` values, none of whose
levels is array-like for `$.each`, and whose nested mappings merge only
onto prior values that are neither strings nor mappings with
`undefined`-valued fields: `r.set(p); r.data()` returns the recursive deep
merge of the prior snapshot with the patch — every key present in the patch
is overwritten (recursively merged when both sides are nested mappings),
keys not mentioned are unchanged.  The exclusions are each forced by a
conjunct of the counterexample: a `null` patch value is typed as an object
and merged instead of overwriting; an array-like patch level is iterated by
index only; and a nested mapping merged onto a prior string starts from the
string's character-index spread (`$.extend({}, "xy")`). -/
theorem qdata_set_is_deep_merge (snapshot patch : JsObj)
    (hd : delFreeO patch = true) (hn : nullFreeO patch = true)
    (hw : wfO patch = true) (hfi : jqForInOnly patch = true)
    (hu : objTopUndefFree snapshot = true)
    (hm : mergeOkO snapshot patch = true) :
    qdataSet snapshot patch = specDeepMerge snapshot patch := by
  have hfi2 : Option.isNone (jsEachLen patch) = true ∧ forInO patch = true := by
    simpa [jqForInOnly, Bool.and_eq_true] using hfi
  have hkeys : jsEachKeys patch = objKeys patch := jsEachKeys_forIn patch hfi2.1
  rw [qdataSet, objTopUndefFree_dropUndef_id snapshot hu, hkeys,
    applyKeysF_forIn_eq patch hw hfi2.2 patch snapshot _ (fun _ _ h => h)
      (by omega),
    applyPatch_eq_spec patch hd hn hw snapshot hm]

/-- Claim C1 as stated is false on the code, in three independent ways, all
with delete-marker-free patches: (1) the patch `{k: null}` merges instead of
overwriting, storing `{k: {}}` where the deep merge would store `{k: null}`;
(2) the patch `{a: {b: 1}}` on the prior `{a: "xy"}` starts the nested merge
from the string's character spread, storing `{a: {0:"x", 1:"y", b:1}}`
instead of `{a: {b:1}}`; (3) the array-like patch `{length:2, 0:"a", 1:"b"}`
is iterated by index only, never storing its `length` field. -/
theorem qdata_set_is_deep_merge_cex :
    (delFreeO (.cons "k" .null .nil) = true
      ∧ qdataSet (.cons "k" (.num 1) .nil) (.cons "k" .null .nil)
          = .cons "k" (.obj .nil) .nil
      ∧ specDeepMerge (.cons "k" (.num 1) .nil) (.cons "k" .null .nil)
          = .cons "k" .null .nil)
    ∧ (qdataSet (.cons "a" (.str "xy") .nil)
          (.cons "a" (.obj (.cons "b" (.num 1) .nil)) .nil)
        = .cons "a" (.obj (.cons "0" (.str "x")
            (.cons "1" (.str "y") (.cons "b" (.num 1) .nil)))) .nil
      ∧ specDeepMerge (.cons "a" (.str "xy") .nil)
          (.cons "a" (.obj (.cons "b" (.num 1) .nil)) .nil)
        = .cons "a" (.obj (.cons "b" (.num 1) .nil)) .nil)
    ∧ (qdataSet (.cons "x" (.num 5) .nil)
          (.cons "length" (.num 2) (.cons "0" (.str "a")
            (.cons "1" (.str "b") .nil)))
        = .cons "x" (.num 5) (.cons "0" (.str "a") (.cons "1" (.str "b") .nil))
      ∧ specDeepMerge (.cons "x" (.num 5) .nil)
          (.cons "length" (.num 2) (.cons "0" (.str "a")
            (.cons "1" (.str "b") .nil)))
        = .cons "x" (.num 5) (.cons "length" (.num 2)
            (.cons "0" (.str "a") (.cons "1" (.str "b") .nil)))) := by
  refine ⟨⟨?_, ?_, ?_⟩, ⟨?_, ?_⟩, ⟨?_, ?_⟩⟩ <;> decide

/-- Witness for C1's theorem at the specification's own scenario: snapshot
`{title:"A", amount:2}`, patch `{amount:3}`. -/
theorem qdata_set_is_deep_merge_witness :
    delFreeO (.cons "amount" (.num 3) .nil) = true
    ∧ nullFreeO (.cons "amount" (.num 3) .nil) = true
    ∧ wfO (.cons "amount" (.num 3) .nil) = true
    ∧ jqForInOnly (.cons "amount" (.num 3) .nil) = true
    ∧ objTopUndefFree (.cons "title" (.str "A") (.cons "amount" (.num 2) .nil)) = true
    ∧ mergeOkO (.cons "title" (.str "A") (.cons "amount" (.num 2) .nil))
        (.cons "amount" (.num 3) .nil) = true
    ∧ qdataSet (.cons "title" (.str "A") (.cons "amount" (.num 2) .nil))
          (.cons "amount" (.num 3) .nil)
        = specDeepMerge (.cons "title" (.str "A") (.cons "amount" (.num 2) .nil))
          (.cons "amount" (.num 3) .nil)
    ∧ qdataSet (.cons "title" (.str "A") (.cons "amount" (.num 2) .nil))
          (.cons "amount" (.num 3) .nil)
        = .cons "title" (.str "A") (.cons "amount" (.num 3) .nil) :=
  ⟨by decide, by decide, by decide, by decide, by decide, by decide,
    qdata_set_is_deep_merge _ _ (by decide) (by decide) (by decide) (by decide)
      (by decide) (by decide),
    by decide⟩

/-- Claim C5 (amended): for every Record r, key k, and well-formed patch
that carries a delete marker at key k (at the end of any dotted path),
provided no level of the patch is array-like for `$.each` (each level is
iterated with `for-in`), after `r.set(patch)` the key k is absent from the
corresponding level of `r.data()`, regardless of k's prior value.  The
array-like exclusion is forced by the counterexample: `$.each` iterates an
array-like level by index only and never reaches its delete-marker entry. -/
theorem qdata_delete_marker_removes_key (prior patch : JsObj) (k : String)
    (ks : List String) (hwp : wfO prior = true) (hwd : wfO patch = true)
    (hfi : jqForInOnly patch = true)
    (h : objLookupPath patch k ks = some .del) :
    objLookupPath (qdataSet prior patch) k ks = none := by
  have hfi2 : Option.isNone (jsEachLen patch) = true ∧ forInO patch = true := by
    simpa [jqForInOnly, Bool.and_eq_true] using hfi
  have hkeys : jsEachKeys patch = objKeys patch := jsEachKeys_forIn patch hfi2.1
  rw [qdataSet, hkeys,
    applyKeysF_forIn_eq patch hwd hfi2.2 patch (dropUndefO prior) _
      (fun _ _ hx => hx) (by omega)]
  exact applyPatch_delete_marker ks k (dropUndefO prior) patch
    (wfO_dropUndef prior hwp) hwd h

/-- Claim C5 as stated is false on the code: the well-formed patch
`{length:2, 0:"a", 1:"b", x:<delete-marker>}` carries a delete marker at key
x, but the level is array-like, so `$.each` visits only indices 0 and 1 and
`delete o["x"]` never runs — after `set` the key x is still present. -/
theorem qdata_delete_marker_removes_key_cex :
    wfO (.cons "length" (.num 2) (.cons "0" (.str "a")
        (.cons "1" (.str "b") (.cons "x" .del .nil)))) = true
    ∧ objLookupPath (.cons "length" (.num 2) (.cons "0" (.str "a")
        (.cons "1" (.str "b") (.cons "x" .del .nil)))) "x" [] = some .del
    ∧ objLookupPath (qdataSet (.cons "x" (.num 5) .nil)
        (.cons "length" (.num 2) (.cons "0" (.str "a")
          (.cons "1" (.str "b") (.cons "x" .del .nil))))) "x" []
      = some (.num 5) := by
  refine ⟨?_, ?_, ?_⟩ <;> decide

/-- Witness for C5's theorem at the specification's scenario: Record
`{title:"A", remark:"x"}`, patch `{remark: <delete-marker>}` gives
`{title:"A"}`. -/
theorem qdata_delete_marker_removes_key_witness :
    wfO (.cons "title" (.str "A") (.cons "remark" (.str "x") .nil)) = true
    ∧ wfO (.cons "remark" .del .nil) = true
    ∧ jqForInOnly (.cons "remark" .del .nil) = true
    ∧ objLookupPath (.cons "remark" .del .nil) "remark" [] = some .del
    ∧ objLookupPath
        (qdataSet (.cons "title" (.str "A") (.cons "remark" (.str "x") .nil))
          (.cons "remark" .del .nil)) "remark" [] = none
    ∧ qdataSet (.cons "title" (.str "A") (.cons "remark" (.str "x") .nil))
        (.cons "remark" .del .nil) = .cons "title" (.str "A") .nil :=
  ⟨by decide, by decide, by decide, by decide,
    qdata_delete_marker_removes_key _ _ "remark" [] (by decide) (by decide)
      (by decide) (by decide),
    by decide⟩

/-- Claim C10 (amended): the patch value `null` is classified by `QData.set`
as a nested mapping (`typeof null === 'object'`, and it is not a
`QDeleteThis` instance), so after `set({k: null})` the value at k is never
`null`: the key holds `$.extend({}, prior[k])` — a prior mapping survives as
a shallow copy of its defined fields, a prior number or boolean is replaced
by the empty mapping, and a prior string is replaced by the mapping of its
character indices to its characters.  The string clause is the amendment,
forced by the counterexample. -/
theorem qdata_set_null_patch (prior : JsObj) (k : String) :
    qdataSet prior (.cons k .null .nil)
      = objSet (dropUndefO prior) k
          (.obj (extendCopy (objLookup (dropUndefO prior) k)))
    ∧ objLookup (qdataSet prior (.cons k .null .nil)) k ≠ some .null
    ∧ (∀ m : JsObj, objLookup prior k = some (.obj m) →
        objLookup (qdataSet prior (.cons k .null .nil)) k
          = some (.obj (dropUndefO m)))
    ∧ (∀ n : Int, objLookup prior k = some (.num n) →
        objLookup (qdataSet prior (.cons k .null .nil)) k = some (.obj .nil))
    ∧ (∀ b : Bool, objLookup prior k = some (.bool b) →
        objLookup (qdataSet prior (.cons k .null .nil)) k = some (.obj .nil))
    ∧ (∀ s : String, objLookup prior k = some (.str s) →
        objLookup (qdataSet prior (.cons k .null .nil)) k
          = some (.obj (stringCharObj s))) := by
  have hlen : jsEachLen (.cons k .null .nil) = none := by
    by_cases hk : k = "length" <;> simp [jsEachLen, objLookup, hk]
  have hbase : qdataSet prior (.cons k .null .nil)
      = objSet (dropUndefO prior) k
          (.obj (extendCopy (objLookup (dropUndefO prior) k))) := by
    simp [qdataSet, jsEachKeys, hlen, objKeys, needO, needV, applyKeysF,
      applyEntryF, objLookup]
  have hlook : objLookup (qdataSet prior (.cons k .null .nil)) k
      = some (.obj (extendCopy (objLookup (dropUndefO prior) k))) := by
    rw [hbase]
    exact objLookup_objSet_self _ _ _
  refine ⟨hbase, ?_, ?_, ?_, ?_, ?_⟩
  · rw [hlook]; simp
  · intro m hm
    rw [hlook, objLookup_dropUndef_of_ne prior k (.obj m) hm (by simp)]
    rfl
  · intro n hn2
    rw [hlook, objLookup_dropUndef_of_ne prior k (.num n) hn2 (by simp)]
    rfl
  · intro b hb
    rw [hlook, objLookup_dropUndef_of_ne prior k (.bool b) hb (by simp)]
    rfl
  · intro s2 hs
    rw [hlook, objLookup_dropUndef_of_ne prior k (.str s2) hs (by simp)]
    rfl

/-- Claim C10 as stated is false on the code: the prior scalar `"x"` at k is
not replaced by the empty mapping — `set({k: null})` on `{k: "x"}` stores
the character spread `{k: {0: "x"}}`. -/
theorem qdata_set_null_patch_cex :
    qdataSet (.cons "k" (.str "x") .nil) (.cons "k" .null .nil)
      = .cons "k" (.obj (.cons "0" (.str "x") .nil)) .nil
    ∧ (JsValue.obj (.cons "0" (.str "x") .nil)) ≠ .obj .nil := by
  refine ⟨?_, ?_⟩ <;> decide

/-- Witness for C10's theorem: a prior mapping `{k: {a:1}}` survives the
`{k: null}` patch as a copy, a prior number 7 becomes `{}`, and a prior
string "x" becomes `{0:"x"}`. -/
theorem qdata_set_null_patch_witness :
    objLookup (qdataSet (.cons "k" (.obj (.cons "a" (.num 1) .nil)) .nil)
        (.cons "k" .null .nil)) "k" = some (.obj (.cons "a" (.num 1) .nil))
    ∧ objLookup (qdataSet (.cons "k" (.num 7) .nil) (.cons "k" .null .nil)) "k"
        = some (.obj .nil)
    ∧ objLookup (qdataSet (.cons "k" (.str "x") .nil) (.cons "k" .null .nil)) "k"
        = some (.obj (.cons "0" (.str "x") .nil)) := by
  refine ⟨?_, ?_, ?_⟩
  · have h := (qdata_set_null_patch (.cons "k" (.obj (.cons "a" (.num 1) .nil)) .nil)
      "k").2.2.1 (.cons "a" (.num 1) .nil) (by decide)
    simpa [dropUndefO] using h
  · exact (qdata_set_null_patch (.cons "k" (.num 7) .nil) "k").2.2.2.1 7 (by decide)
  · have h := (qdata_set_null_patch (.cons "k" (.str "x") .nil) "k").2.2.2.2.2 "x"
      (by decide)
    simpa [stringCharObj, stringCharsAux, natToKey, natToKeyAux] using h

/-!
`QDataList` (qgular.uncompressed.js, lines 447-479): an observable ordered
collection.  Elements are modelled by numeric identities (JS object
identity); the list's `_data` array and the element's `_parents` array
(maintained by `QDataNode._addParent` / `_removeParent`, lines 389-394) are
threaded explicitly.
-/

/-- `QDataList.add(elem)`: pushes the element onto `_data` and appends this
collection to the element's `_parents` (`elem._addParent(this)`), then emits
"add".  Returns the new `_data` and the element's new `_parents`. -/
def qDataListAdd (data parents : List Nat) (elem selfId : Nat) :
    List Nat × List Nat :=
  (data ++ [elem], parents ++ [selfId])

/-- `QDataList.remove(elem)`: replaces `_data` by `_data.filter(v => v !==
elem)`; if the length is unchanged the element was not a member and an Error
is thrown (before `_removeParent` runs), otherwise this collection is
filtered out of the element's `_parents` and "remove" is emitted. -/
def qDataListRemove (data parents : List Nat) (elem selfId : Nat) :
    Except String (List Nat × List Nat) :=
  let d := data.filter (fun v => v != elem)
  if d.length = data.length then
    Except.error "Attempted to remove QDataObject from a collection it was not a member of"
  else
    Except.ok (d, parents.filter (fun v => v != selfId))

theorem filter_ne_of_not_mem (data : List Nat) (x : Nat) (hx : x ∉ data) :
    data.filter (fun v => v != x) = data := by
  induction data with
  | nil => rfl
  | cons a rest ih =>
    simp only [List.mem_cons, not_or] at hx
    have ha : (a != x) = true := by
      simp only [bne_iff_ne, ne_eq]
      exact fun h => hx.1 h.symm
    simp [List.filter, ha, ih hx.2]

/-- Claim C6 (amended): removing a non-member signals a consistency error and
leaves the membership unchanged; and for any element that is not already a
member, `add(x); remove(x)` restores the membership (hence its count) and
removes this collection from x's parent array. -/
theorem qdatalist_remove_consistency (data parents : List Nat) (x c : Nat)
    (hx : x ∉ data) :
    qDataListRemove data parents x c =
        Except.error "Attempted to remove QDataObject from a collection it was not a member of"
    ∧ data.filter (fun v => v != x) = data
    ∧ qDataListRemove (qDataListAdd data parents x c).1
        (qDataListAdd data parents x c).2 x c =
        Except.ok (data, parents.filter (fun v => v != c))
    ∧ c ∉ parents.filter (fun v => v != c) := by
  have hfilter := filter_ne_of_not_mem data x hx
  refine ⟨?_, hfilter, ?_, ?_⟩
  · simp [qDataListRemove, hfilter]
  · have h1 : (data ++ [x]).filter (fun v => v != x) = data := by
      simp [List.filter_append, hfilter]
    have h2 : (parents ++ [c]).filter (fun v => v != c)
        = parents.filter (fun v => v != c) := by
      simp [List.filter_append]
    have hlen : data.length ≠ (data ++ [x]).length := by
      simp
    simp [qDataListRemove, qDataListAdd, h1, h2, hlen]
  · simp [List.mem_filter]

/-- Claim C6 as stated is false on the code: if x is already a member,
`add(x); remove(x)` does not restore the membership count, because `remove`
filters out every occurrence of x.  Prior list `[x]` has count 1; after add
and remove the count is 0. -/
theorem qdatalist_remove_consistency_cex :
    qDataListAdd [5] [] 5 9 = ([5, 5], [9])
    ∧ qDataListRemove [5, 5] [9] 5 9 = Except.ok ([], [])
    ∧ ([] : List Nat).length ≠ [5].length := by
  refine ⟨rfl, rfl, ?_⟩
  decide

/-- Witness for C6's theorem on a concrete state: empty list, element 1,
collection identity 2, prior parents `[7]`. -/
theorem qdatalist_remove_consistency_witness :
    (1 : Nat) ∉ ([] : List Nat)
    ∧ qDataListRemove [] [7] 1 2 =
        Except.error "Attempted to remove QDataObject from a collection it was not a member of"
    ∧ qDataListRemove (qDataListAdd [] [7] 1 2).1 (qDataListAdd [] [7] 1 2).2 1 2 =
        Except.ok ([], [7]) := by
  have h := qdatalist_remove_consistency [] [7] 1 2 (by decide)
  exact ⟨by decide, h.1, by simpa using h.2.2.1⟩

/-!
`QDataDict` (qgular.uncompressed.js, lines 481-511): an observable keyed
collection whose `_data` is a plain object mapping keys to elements.
-/

def dictLookup : List (String × Nat) → String → Option Nat
  | [], _ => none
  | (k0, e) :: rest, k => if k0 = k then some e else dictLookup rest k

/-- The property names every plain object inherits from `Object.prototype`:
for these keys, `this._data[key]` on a plain `{}` is an inherited function
or object, never `undefined`. -/
def objectProtoKeys : List String :=
  ["constructor", "hasOwnProperty", "isPrototypeOf", "propertyIsEnumerable",
   "toLocaleString", "toString", "valueOf", "__defineGetter__",
   "__defineSetter__", "__lookupGetter__", "__lookupSetter__", "__proto__"]

/-- `QDataDict.add(key, elem)`: the guard is
`typeof this._data[key] !== 'undefined'`, a property READ that sees own
bindings first and otherwise the `Object.prototype` members.  When the read
is defined, a re-add of the identical element returns without doing anything
("For now it seems expedient to just ignore this case"), while anything else
throws the duplicate-key Error — in particular `add("toString", x)` on an
empty dictionary throws, since the inherited `toString` function is defined
and is not `elem`.  Otherwise the binding is stored, this collection is
appended to the element's `_parents`, and "add" is emitted. -/
def qDataDictAdd (data : List (String × Nat)) (parents : List Nat)
    (key : String) (elem selfId : Nat) :
    Except String (List (String × Nat) × List Nat) :=
  match dictLookup data key with
  | some existing =>
    if existing = elem then Except.ok (data, parents)
    else Except.error "Attempted to add new key to QDataDict that already existed"
  | none =>
    if objectProtoKeys.contains key then
      Except.error "Attempted to add new key to QDataDict that already existed"
    else Except.ok (data ++ [(key, elem)], parents ++ [selfId])

/-- `QDataDict.removeKey(key)`: throws the consistency Error when
`this._data[key]` reads as `undefined`; otherwise deletes the binding and
calls `elem._removeParent(this)` on the read value — for an
`Object.prototype`-inherited read (no own binding) that value is a function
without `_removeParent`, so the call throws a TypeError instead. -/
def qDataDictRemoveKey (data : List (String × Nat)) (key : String) :
    Except String (List (String × Nat)) :=
  match dictLookup data key with
  | none =>
    if objectProtoKeys.contains key then
      Except.error "TypeError: elem._removeParent is not a function"
    else
      Except.error "Attempted to remove key from QDataDict that did not actually exist"
  | some _ => Except.ok (data.filter (fun kv => kv.1 != key))

theorem dictLookup_append_of_none (data : List (String × Nat)) (k : String)
    (e : Nat) (h : dictLookup data k = none) :
    dictLookup (data ++ [(k, e)]) k = some e := by
  induction data with
  | nil => simp [dictLookup]
  | cons kv rest ih =>
    obtain ⟨k0, e0⟩ := kv
    by_cases h0 : k0 = k
    · simp [dictLookup, h0] at h
    · simp only [dictLookup, h0, if_neg h0, List.cons_append] at h ⊢
      exact ih h

/-- Claim C7 (amended): in a KeyedCollection, for every key k that is not
the name of an `Object.prototype` member (`toString`, `valueOf`,
`hasOwnProperty`, ...): `add(k, x); add(k, x)` with the identical element is
a no-op that does not fail; `add(k, x); add(k, y)` with `y ≠ x` fails with
the duplicate-key error; and `removeKey(k)` fails when `k` is not present.
The inherited-key exclusion is forced by the counterexample: the occupancy
guard is `typeof this._data[key] !== 'undefined'`, which inherited members
satisfy on an empty dictionary. -/
theorem qdatadict_add_removeKey_spec (data : List (String × Nat))
    (parents : List Nat) (k : String) (x y c : Nat)
    (hk : dictLookup data k = none)
    (hproto : objectProtoKeys.contains k = false) (hxy : y ≠ x) :
    qDataDictAdd data parents k x c = Except.ok (data ++ [(k, x)], parents ++ [c])
    ∧ qDataDictAdd (data ++ [(k, x)]) (parents ++ [c]) k x c =
        Except.ok (data ++ [(k, x)], parents ++ [c])
    ∧ qDataDictAdd (data ++ [(k, x)]) (parents ++ [c]) k y c =
        Except.error "Attempted to add new key to QDataDict that already existed"
    ∧ qDataDictRemoveKey data k =
        Except.error "Attempted to remove key from QDataDict that did not actually exist" := by
  have hsome := dictLookup_append_of_none data k x hk
  have hpro : k ∉ objectProtoKeys := by simpa using hproto
  refine ⟨?_, ?_, ?_, ?_⟩
  · simp [qDataDictAdd, hk, hpro]
  · simp [qDataDictAdd, hsome]
  · have : ¬ x = y := fun h => hxy h.symm
    simp [qDataDictAdd, hsome, this]
  · simp [qDataDictRemoveKey, hk, hpro]

/-- Claim C7 as stated is false on the code for keys inherited from
`Object.prototype`: on an empty dictionary, even the FIRST
`add("toString", x)` throws the duplicate-key Error (the inherited
`toString` function is not `undefined` and is not the element), so
`add(k, x); add(k, x)` is not a no-op; and `removeKey("toString")` fails
with a TypeError rather than the missing-key Error. -/
theorem qdatadict_add_removeKey_spec_cex :
    dictLookup [] "toString" = none
    ∧ qDataDictAdd [] [] "toString" 1 0 =
        Except.error "Attempted to add new key to QDataDict that already existed"
    ∧ qDataDictRemoveKey [] "toString" =
        Except.error "TypeError: elem._removeParent is not a function" :=
  ⟨rfl, rfl, rfl⟩

/-- Witness for C7's theorem: empty dictionary, ordinary key "a", elements
1 and 2. -/
theorem qdatadict_add_removeKey_spec_witness :
    dictLookup [] "a" = none
    ∧ objectProtoKeys.contains "a" = false
    ∧ qDataDictAdd [] [] "a" 1 0 = Except.ok ([("a", 1)], [0])
    ∧ qDataDictAdd [("a", 1)] [0] "a" 1 0 = Except.ok ([("a", 1)], [0])
    ∧ qDataDictAdd [("a", 1)] [0] "a" 2 0 =
        Except.error "Attempted to add new key to QDataDict that already existed"
    ∧ qDataDictRemoveKey [] "a" =
        Except.error "Attempted to remove key from QDataDict that did not actually exist" := by
  have h := qdatadict_add_removeKey_spec [] [] "a" 1 2 0 (by decide) (by decide)
    (by decide)
  exact ⟨by decide, by decide, by simpa using h.1, by simpa using h.2.1,
    by simpa using h.2.2.1, by simpa using h.2.2.2⟩

/-!
`QPubSub._notify` (qgular.uncompressed.js, lines 336-342):

    _notify: function(type) {
      var self = this;
      var args = arguments.slice(1);
      $.each(this._subscribers[type], function(_idx, sub) {
        sub(self, args);
      });
    }

An `arguments` object is not an array: it inherits from `Object.prototype`,
which has no `slice`, so `arguments.slice` evaluates to `undefined` and the
call throws a TypeError before any subscriber can run.
-/

/-- Looking up the property `slice` on an `arguments` object: `undefined`
(`none`), since arguments objects do not inherit `Array.prototype.slice`. -/
def argumentsSlice : Option (Nat → List JsValue → List JsValue) := none

/-- `QPubSub._notify` for one emitter (`self`), the subscriber list registered
for the event type (`none` when no subscriber was ever registered for it) and
the full `arguments` list.  On success it would return the sequence of
subscriber invocations, each as (callback, self, args-array passed as the one
further argument); evaluating `arguments.slice(1)` comes first, however. -/
def qpubsubNotify (self : Nat) (subsForType : Option (List Nat))
    (callArgs : List JsValue) : Except String (List (Nat × Nat × List JsValue)) :=
  match argumentsSlice with
  | none => Except.error "TypeError: arguments.slice is not a function"
  | some slice =>
    let args := slice 1 callArgs
    Except.ok ((subsForType.getD []).map (fun cb => (cb, self, args)))

/-- Claim C8 is violated by the code: `_notify` always throws a TypeError at
`arguments.slice(1)` — for every emitter, subscriber list and argument list —
so no subscriber is ever invoked and even the no-subscriber emit fails
instead of being a no-op. -/
theorem qpubsub_notify_always_throws (self : Nat) (subs : Option (List Nat))
    (callArgs : List JsValue) :
    qpubsubNotify self subs callArgs =
      Except.error "TypeError: arguments.slice is not a function" := rfl

/-!
`QTransformer` (qgular.uncompressed.js, lines 535-562).  The constructor
stores `morph`/`unmorph` and wires `base.on('change', ... self.morph())` and
`this._data.on('change', ... self.unmorph())` (the latter on the plain object
`{}`, which has no `on`).  The prototype's `morph`, `_morphLevel`, `unmorph`
and `_unmorphLevel` bodies are empty: they compute nothing and perform no
`set`.
-/

/-- `QTransformer.prototype.morph`: its body is empty, so the derived data is
left untouched. -/
def qTransformerMorph (derived : JsObj) : JsObj := derived

/-- `QTransformer.prototype.unmorph`: its body is empty, so the base record
is left untouched. -/
def qTransformerUnmorph (base : JsObj) : JsObj := base

structure TransformerState where
  base : JsObj
  derived : JsObj
deriving DecidableEq

/-- `base.set(patch)` under a Transformer: `QData.set` merges the patch into
the base and fires "change"; the transformer's base-change subscriber runs
`self.morph()`, whose empty body leaves the derived data unchanged. -/
def qTransformerBaseSet (t : TransformerState) (patch : JsObj) : TransformerState :=
  { base := qdataSet t.base patch, derived := qTransformerMorph t.derived }

/-- A `set` on the derived side: the merge lands on the derived data and the
change subscriber runs `self.unmorph()`, whose empty body leaves the base
unchanged.  (In the source the derived `_data` is even a plain `{}` without
`set` or `on`.) -/
def qTransformerDerivedSet (t : TransformerState) (patch : JsObj) : TransformerState :=
  { base := qTransformerUnmorph t.base, derived := qdataSet t.derived patch }

/-- Claim C3 is violated by the code: with base `{celsius:0}`,
`base.set({celsius:100})` leaves the derived record without any `fahrenheit`
key (morph computes nothing), and a subsequent `derived.set({fahrenheit:32})`
leaves the base at `celsius = 100` instead of 0 (unmorph computes nothing). -/
theorem qtransformer_stub_no_propagation :
    objLookup (qTransformerBaseSet
        ⟨.cons "celsius" (.num 0) .nil, .nil⟩
        (.cons "celsius" (.num 100) .nil)).derived "fahrenheit" = none
    ∧ objLookup (qTransformerBaseSet
        ⟨.cons "celsius" (.num 0) .nil, .nil⟩
        (.cons "celsius" (.num 100) .nil)).base "celsius" = some (.num 100)
    ∧ objLookup (qTransformerDerivedSet
        (qTransformerBaseSet ⟨.cons "celsius" (.num 0) .nil, .nil⟩
          (.cons "celsius" (.num 100) .nil))
        (.cons "fahrenheit" (.num 32) .nil)).base "celsius" = some (.num 100) := by
  refine ⟨rfl, ?_, ?_⟩ <;> decide

/-!
`QWidgetGroup` (qgular.uncompressed.js, lines 613-728; its methods are
installed on `QWidgetFactory.prototype`, line 670).  Widgets are modelled by
their sort keys; `_children` is the supposedly-sorted array.
-/

/-- `Array.prototype.splice(idx, 0, x)` for an in-range index. -/
def listInsertAt {α : Type} : Nat → α → List α → List α
  | 0, a, l => a :: l
  | _ + 1, a, [] => [a]
  | n + 1, a, x :: xs => x :: listInsertAt n a xs

/-- `QWidgetGroup._insertWidget(qw, l, r)` (lines 693-717), with `a = l + 1`
so that the JS bounds `l = -1 .. r` become the naturals `a = 0 .. r`; the JS
guard `r - l === 1` is `r = a`, and `Math.round((l+r)/2)` on integers
`l + r = a + r - 1` is `(a + r) / 2` in natural division.  `len` is
`this._children.length` at entry (the array is only modified in the terminal
cases).  The fuel only bounds the recursion depth; the binary search halves
`r - a` at each step, so `children.length + 2` is never exhausted (the `none` /
zero-fuel fallbacks are unreachable). -/
def qInsertWidgetGo {α : Type} (cmp : α → α → Int) (len : Nat) (qw : α) :
    Nat → Nat → Nat → List α → List α × Nat
  | 0, _, _, children => (children, 0)
  | fuel + 1, a, r, children =>
    if r = a then
      if r = 0 ∨ r = len then (children ++ [qw], 0)
      else (listInsertAt r qw children, r)
    else
      let pivot := (a + r) / 2
      match children.get? pivot with
      | none => (children, 0)
      | some c =>
        if cmp qw c = 0 then (listInsertAt pivot qw children, pivot)
        else if cmp qw c < 0 then qInsertWidgetGo cmp len qw fuel a pivot children
        else qInsertWidgetGo cmp len qw fuel (pivot + 1) r children

/-- `_insertWidget(qw)` called without bounds: `l = -1`, `r =
this._children.length`.  Returns the new `_children` array and the returned
index. -/
def qInsertWidget {α : Type} (cmp : α → α → Int) (qw : α) (children : List α) :
    List α × Nat :=
  qInsertWidgetGo cmp children.length qw (children.length + 2) 0
    children.length children

/-- A comparator ordering ascending by (numeric) key, as the claims demand
(the default comparator is `localeCompare` on the id field). -/
def numCmp (a b : Int) : Int :=
  if a < b then -1 else if b < a then 1 else 0

/-- The array is sorted ascending under the comparator. -/
def listSortedBy {α : Type} (cmp : α → α → Int) : List α → Bool
  | [] => true
  | [_] => true
  | a :: b :: rest => decide (cmp a b ≤ 0) && listSortedBy cmp (b :: rest)

/-- Claim C2 is violated by the code: inserting key 2 into an empty group and
then key 1 (insert-before-first) leaves `_children = [2, 1]`, because the
`r === 0` terminal case of `_insertWidget` does `this._children.push(qw)`,
appending the new minimum at the END of the array; and the append-after-last
case returns index 0 instead of the index at which the widget was placed. -/
theorem qwidgetgroup_insertWidget_unsorted :
    qInsertWidget numCmp (2 : Int) [] = ([2], 0)
    ∧ qInsertWidget numCmp (1 : Int) [2] = ([2, 1], 0)
    ∧ listSortedBy numCmp [2, 1] = false
    ∧ qInsertWidget numCmp (3 : Int) [2] = ([2, 3], 0) := by
  refine ⟨?_, ?_, ?_, ?_⟩ <;> decide

/-- `QWidgetGroup._insertElem(elem, idx)` (lines 718-724): compares
`this.$c.length` — the size of the container SELECTION (1 for the single
container element), not the number of its children — with the index; on
equality it appends, otherwise it inserts before the container child at
`idx`; `insertBefore` against an empty selection (when no child occupies
`idx`) attaches nothing. -/
def qInsertElem {α : Type} (containerSelLen : Nat) (dom : List α) (e : α)
    (idx : Nat) : List α :=
  if containerSelLen = idx then dom ++ [e]
  else if idx < dom.length then listInsertAt idx e dom
  else dom

/-- `QWidgetGroup._addHandler` (lines 646-657): builds the widget, stores it
in `_childrenMap`, inserts it into `_children` via `_insertWidget` and places
the element via `_insertElem` at the returned index.  The state is
(`_children`, rendered children of the container). -/
def qAddHandler {α : Type} (cmp : α → α → Int) (st : List α × List α) (w : α) :
    List α × List α :=
  let res := qInsertWidget cmp w st.1
  (res.1, qInsertElem 1 st.2 w res.2)

/-- Claim C4 is violated by the code: after the very first "add" the widget
array holds one element but nothing is rendered (`_insertElem` compares the
container-selection size 1 with index 0 and then inserts before a
nonexistent child), and after adds with keys 2 then 1 the widget array is
`[2, 1]`, out of comparator order, while the rendered list is empty — so
neither the ordering half nor the index-for-index mirroring half of the
invariant survives. -/
theorem qwidgetgroup_order_invariant_fails :
    qAddHandler numCmp (([], []) : List Int × List Int) 2 = ([2], [])
    ∧ qAddHandler numCmp (qAddHandler numCmp (([], []) : List Int × List Int) 2) 1
        = ([2, 1], [])
    ∧ listSortedBy numCmp [2, 1] = false
    ∧ ([2, 1] : List Int) ≠ ([] : List Int) := by
  refine ⟨?_, ?_, ?_, ?_⟩ <;> decide

/-- JS array read `arr[id]` under a string key: only a numeric string indexes
the array; any other id yields `undefined`. -/
def jsArrayGet {α : Type} (arr : List α) (id : String) : Option α :=
  match jsArrayIndex id with
  | some n => arr.get? n
  | none => none

/-- JS `delete arr[id]` on an array: a numeric in-range id empties that slot
(the hole is modelled as removed, since the identity filter that follows in
`_removeWidget` skips holes); any other id is a no-op. -/
def jsArrayDeleteKey {α : Type} (arr : List α) (id : String) : List α :=
  match jsArrayIndex id with
  | some n => arr.take n ++ arr.drop (n + 1)
  | none => arr

/-- `QWidgetGroup._removeHandler` (lines 659-667) with `_removeWidget`
(lines 725-727): reads `self._children[id]` — the sorted widget ARRAY, not
the id-keyed `_childrenMap` that `_addHandler` filled — throws when that is
undefined, and otherwise removes the widget from the DOM, runs `delete
self._children[id]` and filters the widget out of `_children`; the
`_childrenMap` entry is never deleted. -/
def qRemoveHandler (childrenMap : List (String × Nat)) (children : List Nat)
    (id : String) : Except String (List (String × Nat) × List Nat) :=
  match jsArrayGet children id with
  | none => Except.error "Tried to remove non-existent widget from QWidgetFactory"
  | some qw =>
    Except.ok (childrenMap, (jsArrayDeleteKey children id).filter (fun v => v != qw))

/-- Claim C9 is violated by the code: with a rendered widget for id "a"
present in `_childrenMap`, the "remove" event still throws the
internal-consistency error, because the handler looks the id up in the
`_children` array (where a non-numeric string indexes nothing) instead of
`_childrenMap`. -/
theorem qwidgetgroup_removeHandler_wrong_lookup :
    dictLookup [("a", 1)] "a" = some 1
    ∧ qRemoveHandler [("a", 1)] [1] "a" =
        Except.error "Tried to remove non-existent widget from QWidgetFactory" :=
  ⟨by decide, rfl⟩
